import Mathlib

/-!
Shallow embedding of `src/third_party/luax/parser/transform.py`.

The script reads a JSON value, builds an intermediate `Node` tree
(`Node.fromInput`), encodes it to the canonical tagged form
(`Node.toDict`), and prints the result.  We model JSON-compatible raw
input values as `RVal` (object fields are an association list in
document order, which is the iteration order of a Python dict built by
`json.loads`), the Python values returned by `toDict` as `CVal` (whose
dict keys may be arbitrary raw values, since the generic rule uses the
tag of the node — not necessarily a string — as the key), and Python
exceptions as `Err`.  Numbers are modelled as integers; no claim
involves float behaviour.  `Node.tag` and `Node.value` hold `RVal.rnull`
exactly when the Python attribute is `None`.
-/

namespace Luax

/-- A raw JSON-compatible input value. Object fields are kept in document
order; `json.loads` produces dicts whose iteration order is that order. -/
inductive RVal where
  | rnull
  | rbool (b : Bool)
  | rnum (n : Int)
  | rstr (s : String)
  | rlist (items : List RVal)
  | robj (fields : List (String × RVal))

/-- A Python value as produced by `Node.toDict`.  Dict keys are raw
values because the generic fallback `{self.tag: v}` keys the dict by the
tag of the node, which need not be a string. -/
inductive CVal where
  | cnull
  | cbool (b : Bool)
  | cnum (n : Int)
  | cstr (s : String)
  | clist (items : List CVal)
  | cdict (entries : List (RVal × CVal))

/-- Python exceptions the script can raise. -/
inductive Err where
  /-- a failed `assert` -/
  | assertionError
  /-- `Exception("Unknown op name: " + name)`; carries the message -/
  | unknownOp (msg : String)
  /-- e.g. concatenating `str` with a non-`str`, or an unhashable dict key -/
  | typeError
  /-- `None.toDict()` at the top level -/
  | attributeError

/-- `reprsInt(s)`: whether `int(s)` succeeds.  Modelled for ASCII inputs:
optional surrounding whitespace, an optional sign, then one or more
digits (the CPython unicode digits and `_` digit separators are outside the
modelled input space; no claim depends on them). -/
def reprsInt (s : String) : Bool :=
  let t := ((s.data.dropWhile Char.isWhitespace).reverse.dropWhile Char.isWhitespace).reverse
  let u :=
    match t with
    | '-' :: cs => cs
    | '+' :: cs => cs
    | cs => cs
  !u.isEmpty && u.all Char.isDigit

/-- The intermediate tree node: `tag`, ordered `children`, scalar `value`.
`tag`/`value` are `RVal.rnull` when the Python attribute is `None`. -/
inductive Node where
  | mk (tag : RVal) (children : List Node) (value : RVal)

def Node.tag : Node → RVal
  | .mk t _ _ => t

def Node.children : Node → List Node
  | .mk _ c _ => c

def Node.value : Node → RVal
  | .mk _ _ v => v

/-- The Operator Name Table (`opTable` in `_mapOpName`). -/
def opTable : List (String × String) :=
  [("add", "Add"), ("sub", "Sub"), ("mul", "Mul"), ("div", "Div"),
   ("mod", "Mod"), ("pow", "Pow"), ("eq", "Eq"), ("ne", "Ne"),
   ("lt", "Lt"), ("gt", "Gt"), ("le", "Le"), ("ge", "Ge"),
   ("not", "Not"), ("unm", "Unm"), ("concat", "Concat"),
   ("and", "And"), ("or", "Or")]

/-- `Node._mapOpName(name)`.  A string found in the table resolves; a
string not in the table raises `Exception("Unknown op name: " + name)`;
a non-string fails `name in opTable` and then raises `TypeError` when
concatenated into the message. -/
def Node.mapOpName : RVal → Except Err String
  | .rstr name =>
    match opTable.lookup name with
    | some canon => .ok canon
    | none => .error (.unknownOp ("Unknown op name: " ++ name))
  | _ => .error .typeError

/-- Whether a raw value is hashable in Python (usable as a dict key):
lists and dicts are not. -/
def hashable : RVal → Bool
  | .rlist _ => false
  | .robj _ => false
  | _ => true

mutual

/-- `Node.fromInput(inNode)`: `none` models Python returning `None`
(a dict without a `"tag"` key).  A dict with a `"tag"` key becomes a
tagged node whose children come from the integer-parsing keys in field
order; a list becomes an untagged node of its buildable elements; any
other value `v` becomes `Node.fromValue(v)` (a leaf whose `value` is
`v`, so a JSON `null` leaves `value` as Python `None`). -/
def Node.fromInput : RVal → Option Node
  | .robj fields =>
    match fields.lookup "tag" with
    | none => none
    | some t => some (.mk t (Node.fromFields fields) .rnull)
  | .rlist items => some (.mk .rnull (Node.fromList items) .rnull)
  | v => some (.mk .rnull [] v)

/-- The dict loop of `fromInput`: `for k in inNode: if reprsInt(k): ...`,
appending each successfully built child in field (insertion) order. -/
def Node.fromFields : List (String × RVal) → List Node
  | [] => []
  | (k, v) :: rest =>
    if reprsInt k then
      match Node.fromInput v with
      | some n => n :: Node.fromFields rest
      | none => Node.fromFields rest
    else Node.fromFields rest

/-- The list loop of `fromInput`: build each element, keep the non-`None`
results in order. -/
def Node.fromList : List RVal → List Node
  | [] => []
  | v :: rest =>
    match Node.fromInput v with
    | some n => n :: Node.fromList rest
    | none => Node.fromList rest

end

mutual

/-- Embeds a raw Python value returned as-is by `toDict` (the
`return self.value` leaf case and the `children[0].value` payloads)
into the output value type. -/
def cvalOfRaw : RVal → CVal
  | .rnull => .cnull
  | .rbool b => .cbool b
  | .rnum n => .cnum n
  | .rstr s => .cstr s
  | .rlist items => .clist (cvalOfRawList items)
  | .robj fields => .cdict (cvalOfRawFields fields)

def cvalOfRawList : List RVal → List CVal
  | [] => []
  | v :: vs => cvalOfRaw v :: cvalOfRawList vs

def cvalOfRawFields : List (String × RVal) → List (RVal × CVal)
  | [] => []
  | (k, v) :: fs => (.rstr k, cvalOfRaw v) :: cvalOfRawFields fs

end

mutual

/-- `Node.toDict(self)`: if `value` is not `None`, return it; otherwise
dispatch on the tag through the `elif` chain.  The `Fornum` 5-child
`pass` and the `Function` non-1-child case fall through to the generic
code at the bottom of the method; since the tag there is the string
`"Fornum"`/`"Function"` (hashable, non-`None`), that code yields
`{tag: [child encodings]}`, inlined in those arms here.  The final two
arms are the generic code itself: a bare list for a `None` tag, else
`{tag: v}` — raising `TypeError` if the tag is unhashable. -/
def Node.toDict : Node → Except Err CVal
  | .mk tag children value =>
    match value with
    | .rnull =>
      match tag, children with
      | .rstr "Op", [c0, c1, c2] => do
        let opName ← Node.mapOpName c2.value
        let a ← Node.toDict c0
        let b ← Node.toDict c1
        pure (.cdict [(.rstr opName, .clist [a, b])])
      | .rstr "Op", [c0, c1] => do
        let opName ← Node.mapOpName c0.value
        let b ← Node.toDict c1
        pure (.cdict [(.rstr opName, b)])
      | .rstr "Op", _ => .error .assertionError
      | .rstr "NameList", cs
      | .rstr "ExpList", cs
      | .rstr "VarList", cs => do
        let v ← Node.toDictList cs
        pure (.clist v)
      | .rstr "Id", [c0] => .ok (.cdict [(.rstr "Id", cvalOfRaw c0.value)])
      | .rstr "Id", _ => .error .assertionError
      | .rstr "Number", [c0] => .ok (.cdict [(.rstr "Number", cvalOfRaw c0.value)])
      | .rstr "Number", _ => .error .assertionError
      | .rstr "Boolean", [c0] => .ok (.cdict [(.rstr "Boolean", cvalOfRaw c0.value)])
      | .rstr "Boolean", _ => .error .assertionError
      | .rstr "String", [c0] => .ok (.cdict [(.rstr "String", cvalOfRaw c0.value)])
      | .rstr "String", _ => .error .assertionError
      | .rstr "False", _ => .ok (.cdict [(.rstr "Boolean", .cbool false)])
      | .rstr "True", _ => .ok (.cdict [(.rstr "Boolean", .cbool true)])
      | .rstr "Call", c0 :: rest => do
        let argAll ← Node.toDictList (c0 :: rest)
        let callee ← Node.toDict c0
        pure (.cdict [(.rstr "Call", .clist [callee, .clist argAll.tail])])
      | .rstr "Call", [] => .error .assertionError
      | .rstr "Fornum", [c0, c1, c2, c3] => do
        let e0 ← Node.toDict c0
        let e1 ← Node.toDict c1
        let e2 ← Node.toDict c2
        let e3 ← Node.toDict c3
        pure (.cdict [(.rstr "Fornum", .clist [e0, e1, e2, .cnull, e3])])
      | .rstr "Fornum", [c0, c1, c2, c3, c4] => do
        let v ← Node.toDictList [c0, c1, c2, c3, c4]
        pure (.cdict [(.rstr "Fornum", .clist v)])
      | .rstr "Fornum", _ => .error .assertionError
      | .rstr "Function", [c0] => do
        let b ← Node.toDict c0
        pure (.cdict [(.rstr "Function", .clist [.clist [], b])])
      | .rstr "Function", cs => do
        let v ← Node.toDictList cs
        pure (.cdict [(.rstr "Function", .clist v)])
      | .rstr "If", cs => do
        let be ← Node.ifBranches cs
        pure (.cdict [(.rstr "If", .clist [.clist be.1, be.2])])
      | .rstr "Break", _ => .ok (.cstr "Break")
      | .rstr "Paren", [c0] => Node.toDict c0
      | .rstr "Paren", _ => .error .assertionError
      | .rnull, cs => do
        let v ← Node.toDictList cs
        pure (.clist v)
      | t, cs => do
        let v ← Node.toDictList cs
        if hashable t then pure (.cdict [(t, .clist v)])
        else .error .typeError
    | v => .ok (cvalOfRaw v)

/-- `list(map(lambda x: x.toDict(), children))`, left to right. -/
def Node.toDictList : List Node → Except Err (List CVal)
  | [] => .ok []
  | c :: cs => do
    let e ← Node.toDict c
    let es ← Node.toDictList cs
    pure (e :: es)

/-- The `If` branch of `toDict`: the loop pairs consecutive children
into `branchList`; an odd trailing child becomes `elseBranch`, which is
otherwise `None`.  Children are encoded left to right in both codes. -/
def Node.ifBranches : List Node → Except Err (List CVal × CVal)
  | [] => .ok ([], .cnull)
  | [c] => do
    let e ← Node.toDict c
    pure ([], e)
  | a :: b :: rest => do
    let ea ← Node.toDict a
    let eb ← Node.toDict b
    let pe ← Node.ifBranches rest
    pure (.clist [ea, eb] :: pe.1, pe.2)

end

/-- The top level of the script: `Node.fromInput(inAst).toDict()`.  When
`fromInput` returns `None`, attribute access on `None` raises
`AttributeError`. -/
def Node.transform (raw : RVal) : Except Err CVal :=
  match Node.fromInput raw with
  | some n => Node.toDict n
  | none => .error .attributeError

/-! ## Helper lemmas -/

@[simp]
theorem ok_bind {α β : Type} (a : α) (f : α → Except Err β) :
    (Except.ok a >>= f) = f a := rfl

@[simp]
theorem error_bind {α β : Type} (e : Err) (f : α → Except Err β) :
    ((Except.error e : Except Err α) >>= f) = Except.error e := rfl

@[simp]
theorem pure_ok {α : Type} (a : α) : (pure a : Except Err α) = Except.ok a := rfl

@[simp]
theorem value_mk (t : RVal) (cs : List Node) (v : RVal) :
    Node.value (.mk t cs v) = v := rfl

theorem toDictList_length :
    ∀ (cs : List Node) (es : List CVal),
      Node.toDictList cs = .ok es → es.length = cs.length := by
  intro cs
  induction cs with
  | nil => intro es h; cases h; rfl
  | cons c rest ih =>
    intro es h
    simp only [Node.toDictList] at h
    cases he : Node.toDict c with
    | error e => rw [he] at h; exact absurd h (by simp)
    | ok e =>
      rw [he] at h
      cases hr : Node.toDictList rest with
      | error e' => rw [hr] at h; exact absurd h (by simp)
      | ok es' =>
        rw [hr] at h
        simp only [ok_bind, pure_ok, Except.ok.injEq] at h
        subst h
        simp [ih es' hr]

theorem toDictList_get :
    ∀ (cs : List Node) (es : List CVal),
      Node.toDictList cs = .ok es →
      ∀ (i : Nat) (c : Node) (e : CVal),
        cs[i]? = some c → Node.toDict c = .ok e → es[i]? = some e := by
  intro cs
  induction cs with
  | nil => intro es _ i c e hc _; simp at hc
  | cons c0 rest ih =>
    intro es h i c e hc he
    simp only [Node.toDictList] at h
    cases h0 : Node.toDict c0 with
    | error e' => rw [h0] at h; exact absurd h (by simp)
    | ok e0 =>
      rw [h0] at h
      cases hr : Node.toDictList rest with
      | error e' => rw [hr] at h; exact absurd h (by simp)
      | ok es' =>
        rw [hr] at h
        simp only [ok_bind, pure_ok, Except.ok.injEq] at h
        subst h
        cases i with
        | zero =>
          simp only [List.getElem?_cons_zero, Option.some.injEq] at hc
          subst hc
          rw [he] at h0
          simp [Except.ok.injEq] at h0
          simp [h0]
        | succ j =>
          simp only [List.getElem?_cons_succ] at hc ⊢
          exact ih es' hr j c e hc he

/-! ## Definitional step lemmas

`Node.toDict` reduces definitionally on constructor-headed arguments;
each lemma below just exposes one dispatch arm as its bind chain. -/

theorem toDict_op3 (c0 c1 c2 : Node) :
    Node.toDict (.mk (.rstr "Op") [c0, c1, c2] .rnull)
      = (Node.mapOpName c2.value >>= fun opName =>
         Node.toDict c0 >>= fun a =>
         Node.toDict c1 >>= fun b =>
         pure (CVal.cdict [(.rstr opName, .clist [a, b])])) := rfl

theorem toDict_op2 (c0 c1 : Node) :
    Node.toDict (.mk (.rstr "Op") [c0, c1] .rnull)
      = (Node.mapOpName c0.value >>= fun opName =>
         Node.toDict c1 >>= fun b =>
         pure (CVal.cdict [(.rstr opName, b)])) := rfl

theorem toDict_call_cons (c0 : Node) (rest : List Node) :
    Node.toDict (.mk (.rstr "Call") (c0 :: rest) .rnull)
      = (Node.toDictList (c0 :: rest) >>= fun argAll =>
         Node.toDict c0 >>= fun callee =>
         pure (CVal.cdict [(.rstr "Call", .clist [callee, .clist argAll.tail])])) := rfl

theorem toDict_fornum4 (c0 c1 c2 c3 : Node) :
    Node.toDict (.mk (.rstr "Fornum") [c0, c1, c2, c3] .rnull)
      = (Node.toDict c0 >>= fun e0 =>
         Node.toDict c1 >>= fun e1 =>
         Node.toDict c2 >>= fun e2 =>
         Node.toDict c3 >>= fun e3 =>
         pure (CVal.cdict [(.rstr "Fornum", .clist [e0, e1, e2, .cnull, e3])])) := rfl

theorem toDict_fornum5 (c0 c1 c2 c3 c4 : Node) :
    Node.toDict (.mk (.rstr "Fornum") [c0, c1, c2, c3, c4] .rnull)
      = (Node.toDictList [c0, c1, c2, c3, c4] >>= fun v =>
         pure (CVal.cdict [(.rstr "Fornum", .clist v)])) := rfl

theorem toDict_if (cs : List Node) :
    Node.toDict (.mk (.rstr "If") cs .rnull)
      = (Node.ifBranches cs >>= fun be =>
         pure (CVal.cdict [(.rstr "If", .clist [.clist be.1, be.2])])) := rfl

theorem fromInput_obj (fields : List (String × RVal)) :
    Node.fromInput (.robj fields)
      = (match fields.lookup "tag" with
         | none => none
         | some t => some (.mk t (Node.fromFields fields) .rnull)) := rfl

theorem transform_def (raw : RVal) :
    Node.transform raw
      = (match Node.fromInput raw with
         | some n => Node.toDict n
         | none => .error .attributeError) := rfl

/-! ## Claim theorems -/

/-- C1: an `Op` node with exactly 3 children encodes to a single-key
mapping from the canonical name resolved from the scalar value of child 2 to
the two-element list of the encodings of children 0 and 1; an `Op` node
with exactly 2 children encodes to a single-key mapping from the
canonical name resolved from the scalar value of child 0 to the encoding of
child 1.  The binary/unary split is decided solely by the child count. -/
theorem op_binary_unary_encode :
    (∀ (c0 c1 c2 : Node) (op : String) (a b : CVal),
        Node.mapOpName c2.value = .ok op →
        Node.toDict c0 = .ok a →
        Node.toDict c1 = .ok b →
        Node.toDict (.mk (.rstr "Op") [c0, c1, c2] .rnull)
          = .ok (.cdict [(.rstr op, .clist [a, b])]))
  ∧ (∀ (c0 c1 : Node) (op : String) (b : CVal),
        Node.mapOpName c0.value = .ok op →
        Node.toDict c1 = .ok b →
        Node.toDict (.mk (.rstr "Op") [c0, c1] .rnull)
          = .ok (.cdict [(.rstr op, b)])) := by
  constructor
  · intro c0 c1 c2 op a b hop h0 h1
    simp only [toDict_op3, hop, h0, h1, ok_bind, pure_ok]
  · intro c0 c1 op b hop h1
    simp only [toDict_op2, hop, h1, ok_bind, pure_ok]

/-- Witness for C1 at `1 add 2` (binary) and `unm 7` (unary). -/
theorem op_binary_unary_encode_witness :
    Node.toDict (.mk (.rstr "Op")
        [.mk .rnull [] (.rnum 1), .mk .rnull [] (.rnum 2), .mk .rnull [] (.rstr "add")] .rnull)
      = .ok (.cdict [(.rstr "Add", .clist [.cnum 1, .cnum 2])])
  ∧ Node.toDict (.mk (.rstr "Op")
        [.mk .rnull [] (.rstr "unm"), .mk .rnull [] (.rnum 7)] .rnull)
      = .ok (.cdict [(.rstr "Unm", .cnum 7)]) :=
  ⟨op_binary_unary_encode.1 _ _ _ "Add" _ _ rfl rfl rfl,
   op_binary_unary_encode.2 _ _ "Unm" _ rfl rfl⟩

/-- C3: a `Fornum` node with exactly 4 children encodes to
`{"Fornum": [e0, e1, e2, null, e3]}` (the step slot defaults to null); a
`Fornum` node with exactly 5 children encodes to
`{"Fornum": [e0, e1, e2, e3, e4]}` (the 5-child case falls through to
the generic rule, which produces exactly this shape); any other arity
fails with the `assert(False)`. -/
theorem fornum_arity_encode :
    (∀ (c0 c1 c2 c3 : Node) (e0 e1 e2 e3 : CVal),
        Node.toDict c0 = .ok e0 → Node.toDict c1 = .ok e1 →
        Node.toDict c2 = .ok e2 → Node.toDict c3 = .ok e3 →
        Node.toDict (.mk (.rstr "Fornum") [c0, c1, c2, c3] .rnull)
          = .ok (.cdict [(.rstr "Fornum", .clist [e0, e1, e2, .cnull, e3])]))
  ∧ (∀ (c0 c1 c2 c3 c4 : Node) (e0 e1 e2 e3 e4 : CVal),
        Node.toDict c0 = .ok e0 → Node.toDict c1 = .ok e1 →
        Node.toDict c2 = .ok e2 → Node.toDict c3 = .ok e3 →
        Node.toDict c4 = .ok e4 →
        Node.toDict (.mk (.rstr "Fornum") [c0, c1, c2, c3, c4] .rnull)
          = .ok (.cdict [(.rstr "Fornum", .clist [e0, e1, e2, e3, e4])]))
  ∧ (∀ cs : List Node, cs.length ≠ 4 → cs.length ≠ 5 →
        Node.toDict (.mk (.rstr "Fornum") cs .rnull) = .error .assertionError) := by
  refine ⟨?_, ?_, ?_⟩
  · intro c0 c1 c2 c3 e0 e1 e2 e3 h0 h1 h2 h3
    simp only [toDict_fornum4, h0, h1, h2, h3, ok_bind, pure_ok]
  · intro c0 c1 c2 c3 c4 e0 e1 e2 e3 e4 h0 h1 h2 h3 h4
    simp only [toDict_fornum5, Node.toDictList, h0, h1, h2, h3, h4, ok_bind, pure_ok]
  · intro cs h4 h5
    rcases cs with _ | ⟨a, _ | ⟨b, _ | ⟨c, _ | ⟨d, _ | ⟨e, _ | ⟨f, t⟩⟩⟩⟩⟩⟩
    · rfl
    · rfl
    · rfl
    · rfl
    · exact absurd rfl h4
    · exact absurd rfl h5
    · rfl

/-- Witness for C3 on `Fornum` nodes with 4, 5 and 2 scalar children. -/
theorem fornum_arity_encode_witness :
    Node.toDict (.mk (.rstr "Fornum")
        [.mk .rnull [] (.rnum 0), .mk .rnull [] (.rnum 1),
         .mk .rnull [] (.rnum 2), .mk .rnull [] (.rnum 3)] .rnull)
      = .ok (.cdict [(.rstr "Fornum",
          .clist [.cnum 0, .cnum 1, .cnum 2, .cnull, .cnum 3])])
  ∧ Node.toDict (.mk (.rstr "Fornum")
        [.mk .rnull [] (.rnum 0), .mk .rnull [] (.rnum 1), .mk .rnull [] (.rnum 2),
         .mk .rnull [] (.rnum 3), .mk .rnull [] (.rnum 4)] .rnull)
      = .ok (.cdict [(.rstr "Fornum",
          .clist [.cnum 0, .cnum 1, .cnum 2, .cnum 3, .cnum 4])])
  ∧ Node.toDict (.mk (.rstr "Fornum")
        [.mk .rnull [] (.rnum 0), .mk .rnull [] (.rnum 1)] .rnull)
      = .error .assertionError :=
  ⟨fornum_arity_encode.1 _ _ _ _ _ _ _ _ rfl rfl rfl rfl,
   fornum_arity_encode.2.1 _ _ _ _ _ _ _ _ _ _ rfl rfl rfl rfl rfl,
   fornum_arity_encode.2.2 _ (by decide) (by decide)⟩

/-- C4: a `Call` node with `n ≥ 1` children encodes to
`{"Call": [encode(c0), argList]}` where `argList` has exactly `n - 1`
elements, the encodings of children 1 through `n - 1` in order, and
never includes the encoding of the callee. -/
theorem call_arglist_encode (c0 : Node) (rest : List Node) (e0 : CVal) (es : List CVal)
    (h0 : Node.toDict c0 = .ok e0) (hr : Node.toDictList rest = .ok es) :
    Node.toDict (.mk (.rstr "Call") (c0 :: rest) .rnull)
      = .ok (.cdict [(.rstr "Call", .clist [e0, .clist es])])
  ∧ es.length = rest.length
  ∧ ∀ (i : Nat) (c : Node) (e : CVal),
      rest[i]? = some c → Node.toDict c = .ok e → es[i]? = some e := by
  refine ⟨?_, toDictList_length rest es hr, toDictList_get rest es hr⟩
  have hall : Node.toDictList (c0 :: rest) = .ok (e0 :: es) := by
    simp only [Node.toDictList, h0, hr, ok_bind, pure_ok]
  simp only [toDict_call_cons, hall, h0, ok_bind, pure_ok, List.tail_cons]

/-- Witness for C4 at `f(7, 8)`. -/
theorem call_arglist_encode_witness :
    Node.toDict (.mk (.rstr "Call")
        [.mk (.rstr "Id") [.mk .rnull [] (.rstr "f")] .rnull,
         .mk .rnull [] (.rnum 7), .mk .rnull [] (.rnum 8)] .rnull)
      = .ok (.cdict [(.rstr "Call",
          .clist [.cdict [(.rstr "Id", .cstr "f")], .clist [.cnum 7, .cnum 8]])])
  ∧ ([CVal.cnum 7, CVal.cnum 8] : List CVal).length = ([.mk .rnull [] (.rnum 7), .mk .rnull [] (.rnum 8)] : List Node).length :=
  ⟨(call_arglist_encode (.mk (.rstr "Id") [.mk .rnull [] (.rstr "f")] .rnull)
      [.mk .rnull [] (.rnum 7), .mk .rnull [] (.rnum 8)]
      (.cdict [(.rstr "Id", .cstr "f")]) [.cnum 7, .cnum 8] rfl rfl).1,
   (call_arglist_encode (.mk (.rstr "Id") [.mk .rnull [] (.rstr "f")] .rnull)
      [.mk .rnull [] (.rnum 7), .mk .rnull [] (.rnum 8)]
      (.cdict [(.rstr "Id", .cstr "f")]) [.cnum 7, .cnum 8] rfl rfl).2.1⟩

/-- C10: when the top-level raw value is an object with no `tag` field,
`fromInput` returns `None` and the call `None.toDict()` in the script raises
`AttributeError`: the whole transform fails and no canonical value is
produced. -/
theorem root_tagless_fatal (fields : List (String × RVal))
    (h : fields.lookup "tag" = none) :
    Node.transform (.robj fields) = .error .attributeError := by
  rw [transform_def, fromInput_obj, h]

/-- Witness for C10 at the object with the single field `"x": 1`. -/
theorem root_tagless_fatal_witness :
    Node.transform (.robj [("x", .rnum 1)]) = .error .attributeError :=
  root_tagless_fatal [("x", .rnum 1)] rfl

/-- C8: an `Op` node whose operator-name child holds a string absent
from the Operator Name Table fails with the unknown-operator exception
whose message is the literal prefix followed by the offending
identifier (so the message contains it); this happens before any
operand is encoded, in both the binary (child 2) and unary (child 0)
form.  Every identifier present in the table resolves to its
PascalCase partner. -/
theorem unknown_op_reported :
    (∀ (s : String) (c0 c1 c2 : Node),
        c2.value = .rstr s → opTable.lookup s = none →
        Node.toDict (.mk (.rstr "Op") [c0, c1, c2] .rnull)
          = .error (.unknownOp ("Unknown op name: " ++ s)))
  ∧ (∀ (s : String) (c0 c1 : Node),
        c0.value = .rstr s → opTable.lookup s = none →
        Node.toDict (.mk (.rstr "Op") [c0, c1] .rnull)
          = .error (.unknownOp ("Unknown op name: " ++ s)))
  ∧ (∀ p ∈ opTable, Node.mapOpName (.rstr p.1) = .ok p.2) := by
  refine ⟨?_, ?_, ?_⟩
  · intro s c0 c1 c2 hv hlk
    have hm : Node.mapOpName c2.value = .error (.unknownOp ("Unknown op name: " ++ s)) := by
      rw [hv]; simp only [Node.mapOpName, hlk]
    simp only [toDict_op3, hm, error_bind]
  · intro s c0 c1 hv hlk
    have hm : Node.mapOpName c0.value = .error (.unknownOp ("Unknown op name: " ++ s)) := by
      rw [hv]; simp only [Node.mapOpName, hlk]
    simp only [toDict_op2, hm, error_bind]
  · intro p hp
    fin_cases hp <;> rfl

/-- Witness for C8 at the unknown identifier `"xor"` (binary and unary)
and the table entry `("concat", "Concat")`. -/
theorem unknown_op_reported_witness :
    Node.toDict (.mk (.rstr "Op")
        [.mk .rnull [] (.rnum 1), .mk .rnull [] (.rnum 2), .mk .rnull [] (.rstr "xor")] .rnull)
      = .error (.unknownOp ("Unknown op name: " ++ "xor"))
  ∧ Node.toDict (.mk (.rstr "Op")
        [.mk .rnull [] (.rstr "xor"), .mk .rnull [] (.rnum 2)] .rnull)
      = .error (.unknownOp ("Unknown op name: " ++ "xor"))
  ∧ Node.mapOpName (.rstr "concat") = .ok "Concat" :=
  ⟨unknown_op_reported.1 "xor" (.mk .rnull [] (.rnum 1)) (.mk .rnull [] (.rnum 2))
      (.mk .rnull [] (.rstr "xor")) rfl rfl,
   unknown_op_reported.2.1 "xor" (.mk .rnull [] (.rstr "xor")) (.mk .rnull [] (.rnum 2)) rfl rfl,
   unknown_op_reported.2.2 ("concat", "Concat") (by simp [opTable])⟩

/-- C6: an object without a `tag` field builds to no node at all; when
such an object sits in a child position (an integer-keyed field of an
object, or an element of a list), the children of the parent are exactly
those built from the remaining siblings, in unchanged relative order —
the position vanishes rather than becoming a null or empty node. -/
theorem tagless_object_dropped :
    (∀ fields : List (String × RVal), fields.lookup "tag" = none →
        Node.fromInput (.robj fields) = none)
  ∧ (∀ (tfs fs gs : List (String × RVal)) (k : String),
        tfs.lookup "tag" = none →
        Node.fromFields (fs ++ (k, .robj tfs) :: gs) = Node.fromFields (fs ++ gs))
  ∧ (∀ (tfs : List (String × RVal)) (xs ys : List RVal),
        tfs.lookup "tag" = none →
        Node.fromList (xs ++ .robj tfs :: ys) = Node.fromList (xs ++ ys)) := by
  have hnone : ∀ tfs : List (String × RVal), tfs.lookup "tag" = none →
      Node.fromInput (.robj tfs) = none := by
    intro tfs h
    rw [fromInput_obj, h]
  refine ⟨hnone, ?_, ?_⟩
  · intro tfs fs gs k h
    induction fs with
    | nil =>
      simp only [List.nil_append, Node.fromFields, hnone tfs h]
      cases reprsInt k <;> simp
    | cons p fs' ih =>
      obtain ⟨k', v'⟩ := p
      simp only [List.cons_append, Node.fromFields, List.append_eq]
      rw [ih]
  · intro tfs xs ys h
    induction xs with
    | nil =>
      simp only [List.nil_append, Node.fromList, hnone tfs h]
    | cons x xs' ih =>
      simp only [List.cons_append, Node.fromList, List.append_eq]
      rw [ih]

/-- Witness for C6: the object `{"tag":"B","0":1,"1":{"0":9},"2":2}`
whose middle child value lacks a `tag`, and the list `[1, {"0":9}, 2]`. -/
theorem tagless_object_dropped_witness :
    Node.fromInput (.robj [("0", .rnum 9)]) = none
  ∧ Node.fromFields ([("0", .rnum 1)] ++ ("1", .robj [("0", .rnum 9)]) :: [("2", .rnum 2)])
      = Node.fromFields ([("0", .rnum 1)] ++ [("2", .rnum 2)])
  ∧ Node.fromList ([.rnum 1] ++ .robj [("0", .rnum 9)] :: [.rnum 2])
      = Node.fromList ([.rnum 1] ++ [.rnum 2]) :=
  ⟨tagless_object_dropped.1 [("0", .rnum 9)] rfl,
   tagless_object_dropped.2.1 [("0", .rnum 9)] [("0", .rnum 1)] [("2", .rnum 2)] "1" rfl,
   tagless_object_dropped.2.2 [("0", .rnum 9)] [.rnum 1] [.rnum 2] rfl⟩

/-- Classifies the Raw Scalars of the spec (string, number, boolean, null). -/
def isScalar : RVal → Bool
  | .rnull | .rbool _ | .rnum _ | .rstr _ => true
  | _ => false

theorem fromFields_eq_filterMap (fields : List (String × RVal)) :
    Node.fromFields fields
      = fields.filterMap (fun kv => if reprsInt kv.1 then Node.fromInput kv.2 else none) := by
  induction fields with
  | nil => rfl
  | cons p rest ih =>
    obtain ⟨k, v⟩ := p
    simp only [Node.fromFields, List.filterMap_cons]
    cases hk : reprsInt k with
    | false => simpa using ih
    | true =>
      cases hv : Node.fromInput v with
      | none => simpa using ih
      | some n => simpa using ih

/-- C5 counterexample: in the object `{"1": 1, "0": 0, "tag": "T"}` the
field with key `"1"` appears first, and the built children keep that
appearance order `[leaf 1, leaf 0]` — not the increasing-numeric-key
order `[leaf 0, leaf 1]` the claim requires regardless of field order. -/
theorem children_key_order_counterexample :
    Node.fromInput (.robj [("1", .rnum 1), ("0", .rnum 0), ("tag", .rstr "T")])
      = some (.mk (.rstr "T") [.mk .rnull [] (.rnum 1), .mk .rnull [] (.rnum 0)] .rnull)
  ∧ Node.fromInput (.robj [("1", .rnum 1), ("0", .rnum 0), ("tag", .rstr "T")])
      ≠ some (.mk (.rstr "T") [.mk .rnull [] (.rnum 0), .mk .rnull [] (.rnum 1)] .rnull) := by
  refine ⟨rfl, fun h => ?_⟩
  rw [show Node.fromInput (.robj [("1", .rnum 1), ("0", .rnum 0), ("tag", .rstr "T")])
      = some (.mk (.rstr "T") [.mk .rnull [] (.rnum 1), .mk .rnull [] (.rnum 0)] .rnull)
      from rfl] at h
  simp only [Option.some.injEq, Node.mk.injEq, List.cons.injEq, RVal.rnum.injEq] at h
  omega

/-- C5 amended: for a tagged object, the children are exactly the nodes
built from the integer-parsing keys **in the order the fields appear in
the object** (the iteration order of the dict), fields whose keys do not
parse as integers or whose values build to no node being skipped.  When
the integer keys happen to appear in increasing order this coincides
with increasing-key order, but the order is not re-sorted. -/
theorem children_field_order (fields : List (String × RVal)) (t : RVal)
    (h : fields.lookup "tag" = some t) :
    Node.fromInput (.robj fields)
      = some (.mk t
          (fields.filterMap fun kv => if reprsInt kv.1 then Node.fromInput kv.2 else none)
          .rnull) := by
  rw [fromInput_obj, h, fromFields_eq_filterMap]

/-- Witness for the amended C5 theorem at `{"1": 1, "0": 0, "tag": "T"}`. -/
theorem children_field_order_witness :
    Node.fromInput (.robj [("1", .rnum 1), ("0", .rnum 0), ("tag", .rstr "T")])
      = some (.mk (.rstr "T")
          ([("1", RVal.rnum 1), ("0", .rnum 0), ("tag", .rstr "T")].filterMap
            fun kv => if reprsInt kv.1 then Node.fromInput kv.2 else none)
          .rnull) :=
  children_field_order [("1", .rnum 1), ("0", .rnum 0), ("tag", .rstr "T")] (.rstr "T") rfl

/-- C7 counterexample: the end-to-end transform does not map the scalar
`null` to itself: `fromValue(None)` leaves `value` as Python `None`, so
the `self.value != None` test in `toDict` fails and the untagged childless
node encodes through the generic rule to the empty list `[]`. -/
theorem scalar_null_counterexample :
    Node.transform .rnull = .ok (.clist [])
  ∧ Node.transform .rnull ≠ .ok .cnull := by
  refine ⟨rfl, fun h => ?_⟩
  rw [show Node.transform .rnull = .ok (.clist []) from rfl] at h
  simp only [Except.ok.injEq] at h
  exact CVal.noConfusion h

/-- C7 amended: every non-null Raw Scalar builds to a leaf node holding
that scalar with empty children, and a node whose `value` is a non-null
scalar encodes to exactly that scalar whatever its tag and children, so
the end-to-end transform maps every non-null scalar to itself.  A null
scalar instead builds to a node whose `value` attribute is `None` —
indistinguishable from an absent value — and the transform maps it to
the empty list. -/
theorem scalar_roundtrip :
    (∀ v : RVal, isScalar v = true → v ≠ .rnull →
        Node.fromInput v = some (.mk .rnull [] v)
        ∧ (∀ (t : RVal) (cs : List Node), Node.toDict (.mk t cs v) = .ok (cvalOfRaw v))
        ∧ Node.transform v = .ok (cvalOfRaw v))
  ∧ Node.fromInput .rnull = some (.mk .rnull [] .rnull)
  ∧ Node.transform .rnull = .ok (.clist []) := by
  refine ⟨?_, rfl, rfl⟩
  intro v hs hn
  cases v with
  | rnull => exact absurd rfl hn
  | rbool b => exact ⟨rfl, fun t cs => rfl, rfl⟩
  | rnum n => exact ⟨rfl, fun t cs => rfl, rfl⟩
  | rstr s => exact ⟨rfl, fun t cs => rfl, rfl⟩
  | rlist items => simp [isScalar] at hs
  | robj fields => simp [isScalar] at hs

/-- Witness for the amended C7 theorem at the scalar `5`. -/
theorem scalar_roundtrip_witness :
    Node.fromInput (.rnum 5) = some (.mk .rnull [] (.rnum 5))
  ∧ Node.toDict (.mk (.rstr "Whatever") [] (.rnum 5)) = .ok (cvalOfRaw (.rnum 5))
  ∧ Node.transform (.rnum 5) = .ok (cvalOfRaw (.rnum 5)) :=
  ⟨(scalar_roundtrip.1 (.rnum 5) rfl (fun h => RVal.noConfusion h)).1,
   (scalar_roundtrip.1 (.rnum 5) rfl (fun h => RVal.noConfusion h)).2.1 (.rstr "Whatever") [],
   (scalar_roundtrip.1 (.rnum 5) rfl (fun h => RVal.noConfusion h)).2.2⟩

/-- C9 counterexample: the object `{"tag": 5}` has a `tag` field that is
not a string, yet the transform neither fails nor drops it: it succeeds
and encodes the object through the generic rule, keyed by the raw tag
value `5`. -/
theorem nonstring_tag_counterexample :
    Node.transform (.robj [("tag", .rnum 5)]) = .ok (.cdict [(.rnum 5, .clist [])])
  ∧ (Node.transform (.robj [("tag", .rnum 5)])).toOption.isSome = true :=
  ⟨rfl, rfl⟩

/-- C9 amended: the code never checks that the `tag` field is a string.
An object whose `tag` is a non-string scalar (a number or a boolean) is
built into a node with that tag and encoded — without any error — by
the generic fallback, producing the single-key mapping from the raw tag
value to the list of encoded children. -/
theorem nonstring_tag_generic_encode (fields : List (String × RVal)) (t : RVal)
    (es : List CVal)
    (ht : fields.lookup "tag" = some t)
    (hshape : (∃ n, t = .rnum n) ∨ (∃ b, t = .rbool b))
    (hes : Node.toDictList (Node.fromFields fields) = .ok es) :
    Node.transform (.robj fields) = .ok (.cdict [(t, .clist es)]) := by
  rw [transform_def, fromInput_obj, ht]
  rcases hshape with ⟨n, rfl⟩ | ⟨b, rfl⟩
  · show (Node.toDictList (Node.fromFields fields) >>= fun v =>
      if hashable (.rnum n) then pure (CVal.cdict [(.rnum n, .clist v)])
      else .error .typeError) = _
    rw [hes]
    rfl
  · show (Node.toDictList (Node.fromFields fields) >>= fun v =>
      if hashable (.rbool b) then pure (CVal.cdict [(.rbool b, .clist v)])
      else .error .typeError) = _
    rw [hes]
    rfl

/-- Witness for the amended C9 theorem at `{"tag": 5}`. -/
theorem nonstring_tag_generic_encode_witness :
    Node.transform (.robj [("tag", .rnum 5)]) = .ok (.cdict [(.rnum 5, .clist [])]) :=
  nonstring_tag_generic_encode [("tag", .rnum 5)] (.rnum 5) [] rfl (.inl ⟨5, rfl⟩) rfl

/-! ## `If` pairing machinery (C2) -/

/-- Pairs consecutive encoded children, dropping an odd trailing one:
the pure content of the `branchList` loop. -/
def pairChunks : List CVal → List CVal
  | e1 :: e2 :: rest => .clist [e1, e2] :: pairChunks rest
  | _ => []

theorem pairChunks_length : ∀ es : List CVal, (pairChunks es).length = es.length / 2
  | [] => rfl
  | [_] => by simp [pairChunks]
  | _ :: _ :: rest => by
    simp only [pairChunks, List.length_cons, pairChunks_length rest]
    omega

theorem pairChunks_get :
    ∀ (es : List CVal) (i : Nat) (e1 e2 : CVal),
      es[2 * i]? = some e1 → es[2 * i + 1]? = some e2 →
      (pairChunks es)[i]? = some (.clist [e1, e2])
  | [], i, _, _, h1, _ => by simp at h1
  | [e], i, _, _, h1, h2 => by
    rcases i with _ | j
    · simp at h2
    · rw [show 2 * (j + 1) = 2 * j + 1 + 1 from by omega] at h1
      simp at h1
  | a :: b :: rest, 0, e1, e2, h1, h2 => by
    simp only [Nat.mul_zero, List.getElem?_cons_zero, Option.some.injEq] at h1
    simp only [Nat.mul_zero, Nat.zero_add, List.getElem?_cons_succ,
      List.getElem?_cons_zero, Option.some.injEq] at h2
    subst h1
    subst h2
    simp [pairChunks]
  | a :: b :: rest, i + 1, e1, e2, h1, h2 => by
    rw [show 2 * (i + 1) = 2 * i + 1 + 1 from by omega] at h1
    rw [show 2 * (i + 1) + 1 = 2 * i + 1 + 1 + 1 from by omega] at h2
    simp only [List.getElem?_cons_succ] at h1 h2
    have := pairChunks_get rest i e1 e2 h1 h2
    simpa [pairChunks] using this

theorem ifBranches_of_toDictList :
    ∀ (cs : List Node) (es : List CVal), Node.toDictList cs = .ok es →
      Node.ifBranches cs
        = .ok (pairChunks es,
            if es.length % 2 = 1 then es.getLastD .cnull else .cnull)
  | [], es, h => by
    rw [show Node.toDictList [] = .ok [] from rfl] at h
    cases h
    rfl
  | [c], es, h => by
    rw [show Node.toDictList [c] = (Node.toDict c >>= fun e => pure [e]) from rfl] at h
    cases he : Node.toDict c with
    | error err => rw [he] at h; exact absurd h (by simp)
    | ok e =>
      rw [he] at h
      simp only [ok_bind, pure_ok, Except.ok.injEq] at h
      subst h
      rw [show Node.ifBranches [c] = (Node.toDict c >>= fun e => pure ([], e)) from rfl,
        he, ok_bind, pure_ok]
      rfl
  | a :: b :: rest, es, h => by
    rw [show Node.toDictList (a :: b :: rest)
        = (Node.toDict a >>= fun ea =>
           Node.toDictList (b :: rest) >>= fun tl =>
           pure (ea :: tl)) from rfl] at h
    cases ha : Node.toDict a with
    | error err => rw [ha] at h; exact absurd h (by simp)
    | ok ea =>
      rw [ha] at h
      simp only [ok_bind] at h
      rw [show Node.toDictList (b :: rest)
          = (Node.toDict b >>= fun eb =>
             Node.toDictList rest >>= fun r =>
             pure (eb :: r)) from rfl] at h
      cases hb : Node.toDict b with
      | error err => rw [hb] at h; exact absurd h (by simp)
      | ok eb =>
        rw [hb] at h
        simp only [ok_bind, pure_ok] at h
        cases hr : Node.toDictList rest with
        | error err => rw [hr] at h; exact absurd h (by simp)
        | ok r =>
          rw [hr] at h
          simp only [ok_bind, pure_ok, Except.ok.injEq] at h
          subst h
          have ih := ifBranches_of_toDictList rest r hr
          rw [show Node.ifBranches (a :: b :: rest)
              = (Node.toDict a >>= fun ea =>
                 Node.toDict b >>= fun eb =>
                 Node.ifBranches rest >>= fun pe =>
                 pure (.clist [ea, eb] :: pe.1, pe.2)) from rfl]
          simp only [ha, hb, ih, ok_bind, pure_ok]
          have hite : (if (ea :: eb :: r : List CVal).length % 2 = 1
              then (ea :: eb :: r : List CVal).getLastD .cnull else .cnull)
            = (if r.length % 2 = 1 then r.getLastD .cnull else .cnull) := by
            by_cases hodd : r.length % 2 = 1
            · have hc : ((ea :: eb :: r : List CVal).length % 2 = 1) := by
                simp only [List.length_cons]
                omega
              have hr0 : r ≠ [] := by
                intro h0
                subst h0
                simp at hodd
              rw [if_pos hc, if_pos hodd, List.getLastD_cons, List.getLastD_cons,
                List.getLastD_eq_getLast?, List.getLastD_eq_getLast?]
              obtain ⟨x, hx⟩ := Option.isSome_iff_exists.mp (List.getLast?_isSome.mpr hr0)
              rw [hx]
              rfl
            · have hc : ¬((ea :: eb :: r : List CVal).length % 2 = 1) := by
                simp only [List.length_cons]
                omega
              rw [if_neg hc, if_neg hodd]
          rw [hite]
          rfl

/-- C2: an `If` node with `2k` successfully encoded children produces
`{"If": [branchList, null]}` where `branchList` has exactly `k` entries,
the `i`-th being the pair of the encodings of children `2i` and
`2i + 1`; with `2k + 1` children the same `k` pairs are produced and the
else slot is the encoding of child `2k` (element `2k` of the encoded
child list). -/
theorem if_branch_pairing :
    (∀ (cs : List Node) (es : List CVal) (k : Nat),
        Node.toDictList cs = .ok es → cs.length = 2 * k →
        Node.toDict (.mk (.rstr "If") cs .rnull)
          = .ok (.cdict [(.rstr "If", .clist [.clist (pairChunks es), .cnull])])
        ∧ (pairChunks es).length = k
        ∧ ∀ (i : Nat) (e1 e2 : CVal),
            es[2 * i]? = some e1 → es[2 * i + 1]? = some e2 →
            (pairChunks es)[i]? = some (.clist [e1, e2]))
  ∧ (∀ (cs : List Node) (es : List CVal) (k : Nat) (el : CVal),
        Node.toDictList cs = .ok es → cs.length = 2 * k + 1 → es[2 * k]? = some el →
        Node.toDict (.mk (.rstr "If") cs .rnull)
          = .ok (.cdict [(.rstr "If", .clist [.clist (pairChunks es), el])])
        ∧ (pairChunks es).length = k
        ∧ ∀ (i : Nat) (e1 e2 : CVal),
            es[2 * i]? = some e1 → es[2 * i + 1]? = some e2 →
            (pairChunks es)[i]? = some (.clist [e1, e2])) := by
  constructor
  · intro cs es k h hlen
    have hes : es.length = 2 * k := by rw [toDictList_length cs es h, hlen]
    have hib := ifBranches_of_toDictList cs es h
    rw [if_neg (by omega : ¬(es.length % 2 = 1))] at hib
    refine ⟨?_, ?_, pairChunks_get es⟩
    · simp only [toDict_if, hib, ok_bind, pure_ok]
    · rw [pairChunks_length, hes]
      omega
  · intro cs es k el h hlen hel
    have hes : es.length = 2 * k + 1 := by rw [toDictList_length cs es h, hlen]
    have hib := ifBranches_of_toDictList cs es h
    rw [if_pos (by omega : es.length % 2 = 1)] at hib
    have hlast : es.getLastD .cnull = el := by
      rw [List.getLastD_eq_getLast?, List.getLast?_eq_getElem?, hes]
      rw [show 2 * k + 1 - 1 = 2 * k from by omega, hel]
      rfl
    rw [hlast] at hib
    refine ⟨?_, ?_, pairChunks_get es⟩
    · simp only [toDict_if, hib, ok_bind, pure_ok]
    · rw [pairChunks_length, hes]
      omega

/-- Witness for C2: `If` with the two children `(true, Break)` (even,
`k = 1`, null else) and with three children `(true, Break, 9)` (odd,
`k = 1`, else `9`). -/
theorem if_branch_pairing_witness :
    Node.toDict (.mk (.rstr "If")
        [.mk .rnull [] (.rbool true), .mk (.rstr "Break") [] .rnull] .rnull)
      = .ok (.cdict [(.rstr "If",
          .clist [.clist [.clist [.cbool true, .cstr "Break"]], .cnull])])
  ∧ Node.toDict (.mk (.rstr "If")
        [.mk .rnull [] (.rbool true), .mk (.rstr "Break") [] .rnull,
         .mk .rnull [] (.rnum 9)] .rnull)
      = .ok (.cdict [(.rstr "If",
          .clist [.clist [.clist [.cbool true, .cstr "Break"]], .cnum 9])]) :=
  ⟨(if_branch_pairing.1
      [.mk .rnull [] (.rbool true), .mk (.rstr "Break") [] .rnull]
      [.cbool true, .cstr "Break"] 1 rfl rfl).1,
   (if_branch_pairing.2
      [.mk .rnull [] (.rbool true), .mk (.rstr "Break") [] .rnull, .mk .rnull [] (.rnum 9)]
      [.cbool true, .cstr "Break", .cnum 9] 1 (.cnum 9) rfl rfl rfl).1⟩

end Luax
